import Mathlib

/-!
Verification development for the fastapi-demo-project core: a shallow
embedding of the generic repository engine (`app/core/repository.py`),
the ownership-scoping proxy (`app/domains/collections/collections_service.py`),
the divergent collection repository (`app/domains/collections/collections_repository.py`),
the cache-aside hero service (`app/domains/heroes/heroes_serv.py`), and the
auth session validator (`app/domains/users/auth_dependencies.py` and
`app/domains/users/user_service.py`), together with theorems checking the
design specification against this embedding.

Storage is modelled as explicit list-of-rows state; the asynchronous
session is replaced by explicit state passing.  Exceptions are modelled
by `Except` with an error enumeration covering both the business error
taxonomy (spec section 7) and the raw Python/storage exceptions that the
code can let escape.
-/

/-- Errors observable from the embedded code.  `notFound`, `alreadyExists`,
`forbidden` and `unauthorized` are the business taxonomy of
`app/core/exceptions.py`; `integrityError` is the raw storage
`sqlalchemy.exc.IntegrityError`, `validationError` the raw pydantic
`ValidationError`, `valueError` Python's `ValueError`, and `zeroDivision`
Python's `ZeroDivisionError`. -/
inductive Err where
  | notFound
  | alreadyExists
  | forbidden
  | unauthorized
  | integrityError
  | validationError
  | valueError
  | zeroDivision
deriving DecidableEq, Repr

/-- Row of the `collections` table (`app/models/collections.py`):
integer primary key, `title` (non-nullable), `description` (nullable),
owner foreign key `user_id`.  The table has the composite uniqueness
constraint `UniqueConstraint("title", "user_id")`. -/
structure Collection where
  id : Nat
  title : String
  description : Option String
  user_id : Nat
deriving DecidableEq, Repr

/-- Embeds the `CollectionCreate` pydantic schema (`app/schemas/collections.py`). -/
structure CollectionCreate where
  title : String
  description : Option String
deriving DecidableEq, Repr

/-- Embeds the `CollectionUpdate` pydantic schema: every field optional, and
`model_dump(exclude_unset=True)` distinguishes an omitted field from one
explicitly supplied.  The outer `Option` is that presence flag; for the
nullable `description` column the inner `Option` is the value itself
(so an explicit null is representable, as in pydantic). -/
structure CollectionUpdate where
  title : Option String
  description : Option (Option String)
deriving DecidableEq, Repr

/-- State of the collections store: the table rows plus a counter of
`session.flush()` calls, used to express "performs no persistence write". -/
structure CollDB where
  rows : List Collection
  flushes : Nat
deriving DecidableEq, Repr

/-- Replace the first element satisfying `p` by `x` (models SQLAlchemy's
in-place mutation of the one identity-mapped row fetched for a primary key). -/
def replaceF {α : Type} (p : α → Bool) (x : α) : List α → List α
  | [] => []
  | a :: as => if p a then x :: as else a :: replaceF p x as

namespace RepositoryBase

/-- Embeds `RepositoryBase.get` at the `Collection` entity: `session.get(model, id)`
returns the row with that primary key, else `NotFoundException`. -/
def get (st : CollDB) (id : Nat) : Except Err Collection :=
  match st.rows.find? (fun r => r.id == id) with
  | some r => .ok r
  | none => .error .notFound

/-- The dict `obj_in.model_dump(exclude_unset=True)` is non-empty. -/
def hasUpdate (u : CollectionUpdate) : Bool :=
  u.title.isSome || u.description.isSome

/-- The `setattr(db_obj, field, value)` loop: each field present in the
dump overwrites the attribute, every other attribute is untouched. -/
def applyUpdate (c : Collection) (u : CollectionUpdate) : Collection :=
  { c with
    title := u.title.getD c.title,
    description := u.description.getD c.description }

/-- Uniqueness constraint check performed by the storage engine at flush
time: some other row already carries the same `(title, user_id)` pair. -/
def titleConflict (st : CollDB) (c : Collection) : Bool :=
  st.rows.any (fun r => r.id != c.id && r.title == c.title && r.user_id == c.user_id)

/-- Embeds `RepositoryBase.update`: dumps the partial input with
`exclude_unset=True`; if no field is present it returns `db_obj` without
touching the session; otherwise it applies the fields and flushes.
The flush is NOT wrapped in a `try/except IntegrityError`, so a
uniqueness violation escapes as the raw storage error. -/
def update (st : CollDB) (db_obj : Collection) (obj_in : CollectionUpdate) :
    Except Err Collection × CollDB :=
  if hasUpdate obj_in then
    let c' := applyUpdate db_obj obj_in
    if titleConflict st c' then
      (.error .integrityError, st)
    else
      (.ok c',
        { rows := replaceF (fun r => r.id == c'.id) c' st.rows,
          flushes := st.flushes + 1 })
  else
    (.ok db_obj, st)

/-- Primary key assigned by storage on insert (`autoincrement`). -/
def nextId (st : CollDB) : Nat :=
  st.rows.foldr (fun r m => max r.id m) 0 + 1

/-- Embeds `RepositoryBase.create` at `Collection`, with the owner id injected the
way `_OwnerScopedRepo.create` supplies it.  The flush is wrapped in
`try/except IntegrityError`, so a `(title, user_id)` uniqueness violation
is translated into `AlreadyExistsException`. -/
def create (st : CollDB) (obj_in : CollectionCreate) (user_id : Nat) :
    Except Err Collection × CollDB :=
  if st.rows.any (fun r => r.title == obj_in.title && r.user_id == user_id) then
    (.error .alreadyExists, st)
  else
    let c : Collection := ⟨nextId st, obj_in.title, obj_in.description, user_id⟩
    (.ok c, { rows := st.rows ++ [c], flushes := st.flushes + 1 })

/-- Embeds `RepositoryBase.delete`: re-resolves the record via `get` (uniform
`NotFound`), removes it and flushes, returning the removed record. -/
def delete (st : CollDB) (id : Nat) : Except Err Collection × CollDB :=
  match get st id with
  | .error e => (.error e, st)
  | .ok obj =>
      (.ok obj,
        { rows := st.rows.eraseP (fun r => r.id == id),
          flushes := st.flushes + 1 })

end RepositoryBase

namespace OwnerScopedRepo

/-- Embeds `_OwnerScopedRepo.get`: repository `get` followed by the ownership
check; a record owned by someone else yields `ForbiddenException`. -/
def get (st : CollDB) (user_id : Nat) (id : Nat) : Except Err Collection :=
  match RepositoryBase.get st id with
  | .error e => .error e
  | .ok c => if c.user_id != user_id then .error .forbidden else .ok c

/-- Embeds `_OwnerScopedRepo.update`: ownership-checked `get` first, then the
plain repository update on the already-resolved record. -/
def update (st : CollDB) (user_id : Nat) (id : Nat) (obj_in : CollectionUpdate) :
    Except Err Collection × CollDB :=
  match get st user_id id with
  | .error e => (.error e, st)
  | .ok c => RepositoryBase.update st c obj_in

/-- Embeds `_OwnerScopedRepo.delete`: ownership-checked `get` first, then the
plain repository delete. -/
def delete (st : CollDB) (user_id : Nat) (id : Nat) : Except Err Unit × CollDB :=
  match get st user_id id with
  | .error e => (.error e, st)
  | .ok _ =>
      match RepositoryBase.delete st id with
      | (.error e, st') => (.error e, st')
      | (.ok _, st') => (.ok (), st')

end OwnerScopedRepo

namespace CollectionRepository

/-- Embeds `CollectionRepository.get_by_id` (the divergent variant in
`collections_repository.py`): the owner predicate is folded into the
`WHERE` clause, so a record owned by someone else is reported as
`NotFoundException`, not `ForbiddenException`. -/
def get_by_id (st : CollDB) (obj_id : Nat) (user_id : Nat) : Except Err Collection :=
  match st.rows.find? (fun r => r.id == obj_id && r.user_id == user_id) with
  | some c => .ok c
  | none => .error .notFound

end CollectionRepository

/-- Row of the `heroes` table.  `app/models/heroes.py` is referenced by
`app/models/__init__.py` but is not part of the sources; the columns are
taken from the `HeroBase`/`HeroResponse` schemas in `app/schemas/heroes.py`
(`name`, `alias`, `powers` nullable) plus the integer primary key. -/
structure Hero where
  id : Nat
  name : String
  «alias» : String
  powers : Option String
deriving DecidableEq, Repr

/-- Columns of the `Hero` model reachable through `getattr`. -/
inductive HeroField where
  | hid
  | hname
  | halias
  | hpowers
deriving DecidableEq, Repr

/-- Value of one column cell as compared by the SQL engine: either NULL
(modelled as the bottom element, i.e. NULLs sort first ascending) or an
integer or string scalar. -/
abbrev SortVal := WithBot (Lex (Nat ⊕ String))

/-- Integer scalar. -/
def natVal (n : Nat) : SortVal := (toLex (Sum.inl n) : Lex (Nat ⊕ String))

/-- String scalar. -/
def strVal (s : String) : SortVal := (toLex (Sum.inr s) : Lex (Nat ⊕ String))

/-- Value of `getattr(model, field)` as a sortable cell value. -/
def heroFieldVal (h : Hero) : HeroField → SortVal
  | .hid => natVal h.id
  | .hname => strVal h.name
  | .halias => strVal h.«alias»
  | .hpowers => match h.powers with
    | some s => strVal s
    | none => ⊥

/-- Resolution `hasattr(self.model, field)`/`getattr` on a field name arriving as a
string: the known columns resolve, anything else does not. -/
def strToHeroField : String → Option HeroField
  | "id" => some .hid
  | "name" => some .hname
  | "alias" => some .halias
  | "powers" => some .hpowers
  | _ => none

/-- Textual content of a column for `ilike`; the NULL `powers` cell stays
NULL (and an SQL NULL never matches a LIKE pattern). -/
def heroText (h : Hero) : HeroField → Option String
  | .hid => some (toString h.id)
  | .hname => some h.name
  | .halias => some h.«alias»
  | .hpowers => h.powers

/-- Case-insensitive substring test over character lists. -/
def containsSub (hay needle : List Char) : Bool :=
  hay.tails.any (fun t => needle.isPrefixOf t)

/-- Lower-cased characters of a string (working on the character list so
that every definition reduces inside the kernel). -/
def lowerChars (s : String) : List Char :=
  s.data.map Char.toLower

/-- Clause `column.ilike(f"%\x7bsearch\x7d%")`: case-insensitive containment;
NULL never matches. -/
def ilikeB (v : Option String) (pat : String) : Bool :=
  match v with
  | none => false
  | some s => containsSub (lowerChars s) (lowerChars pat)

/-- One `exactFilters` entry (`query.filter_by(**filters)`) holds on a row. -/
def matchesFilters (fs : List (HeroField × SortVal)) (h : Hero) : Bool :=
  fs.all (fun fv => heroFieldVal h fv.1 == fv.2)

/-- Python truthiness of `if search and search_fields:`: a `None` or empty
search string, or an empty field list, disables the search clause. -/
def searchActive (search : Option String) (sf : List String) : Bool :=
  match search with
  | some s => !(s == "") && !sf.isEmpty
  | none => false

/-- The searchable columns that survive the `hasattr` check. -/
def searchFieldsOf (sf : List String) : List HeroField :=
  sf.filterMap strToHeroField

/-- Per-row residue of the search `WHERE` clause (true when the clause is
not applied at all, i.e. the guards of steps 2 fail). -/
def searchPredB (search : Option String) (sf : List String) (h : Hero) : Bool :=
  if searchActive search sf && !(searchFieldsOf sf).isEmpty then
    (searchFieldsOf sf).any (fun f => ilikeB (heroText h f) (search.getD ""))
  else
    true

/-- Test `field.startswith("-")` on the character list. -/
def startsWithDash (e : String) : Bool :=
  match e.data with
  | '-' :: _ => true
  | _ => false

/-- Computes `field.lstrip("-")`: strips every leading dash. -/
def lstripDashes (e : String) : String :=
  String.mk (e.data.dropWhile (fun ch => ch == '-'))

/-- One `order_by` entry: `is_desc = field.startswith("-")`,
`field_name = field.lstrip("-")`, dropped when `hasattr` fails. -/
def parseEntry (e : String) : Option (HeroField × Bool) :=
  (strToHeroField (lstripDashes e)).map (fun f => (f, startsWithDash e))

/-- The `ordering_clauses` list built left-to-right from `order_by`. -/
def parseOrderBy (entries : List String) : List (HeroField × Bool) :=
  entries.filterMap parseEntry

/-- Multi-key comparison induced by an `ORDER BY` clause list: the first
key on which the two rows differ decides (descending when the entry was
flagged with a leading dash); rows equal on every key compare `true`. -/
def lexLeB : List (HeroField × Bool) → Hero → Hero → Bool
  | [], _, _ => true
  | (f, dsc) :: ks, a, b =>
    if heroFieldVal a f = heroFieldVal b f then lexLeB ks a b
    else if dsc then decide (heroFieldVal b f < heroFieldVal a f)
    else decide (heroFieldVal a f < heroFieldVal b f)

/-- Relation form of `lexLeB`. -/
def lexLe (keys : List (HeroField × Bool)) (a b : Hero) : Prop :=
  lexLeB keys a b = true

instance (keys : List (HeroField × Bool)) : DecidableRel (lexLe keys) :=
  fun a b => inferInstanceAs (Decidable (lexLeB keys a b = true))

/-- The rows ordered by the `ORDER BY` clause list (any sort consistent
with the comparison models the SQL engine, which promises nothing on ties). -/
def sortHeroes (keys : List (HeroField × Bool)) (l : List Hero) : List Hero :=
  List.insertionSort (lexLe keys) l

/-- Embeds `RepositoryBase.get_list`: exact filters, search, sort, count before
pagination, then offset/limit.  A total function: no input errors. -/
def getList (db : List Hero) (limit offset : Option Nat) (search : Option String)
    (sf : List String) (orderBy : Option (List String))
    (filters : List (HeroField × SortVal)) : Nat × List Hero :=
  let q1 := if filters.isEmpty then db else db.filter (matchesFilters filters)
  let q2 := if searchActive search sf && !(searchFieldsOf sf).isEmpty then
              q1.filter (fun h =>
                (searchFieldsOf sf).any (fun f => ilikeB (heroText h f) (search.getD "")))
            else q1
  let keys := parseOrderBy (orderBy.getD [])
  let q3 := if keys.isEmpty then q2 else sortHeroes keys q2
  let total := q3.length
  let q4 := match offset with
    | some o => q3.drop o
    | none => q3
  let q5 := match limit with
    | some l => q4.take l
    | none => q4
  (total, q5)

/-- The per-row predicate "satisfies the exact filters and the search
clause" that the count in `get_list` is claimed to agree with. -/
def listPred (search : Option String) (sf : List String)
    (filters : List (HeroField × SortVal)) (h : Hero) : Bool :=
  matchesFilters filters h && searchPredB search sf h

/-- Embeds the `PaginationInfo` envelope (`app/schemas/response.py`): exactly the
fields `total`, `page`, `size`, `pages` — the envelope carries no
previous/next boundary flags or links. -/
structure PaginationInfo where
  total : Nat
  page : Nat
  size : Nat
  pages : Nat
deriving DecidableEq, Repr

/-- The pagination assembly block of `CollectionService.get_collections`
(and identically `HeroService.get_heroes`): pure in `(total, limit,
offset)`, no storage access.  When either `limit` or `offset` is absent
no pagination info is produced; otherwise `page = offset // size + 1` is
computed first — a Python `ZeroDivisionError` when `size = 0` — and
`pages = math.ceil(total / size) if size > 0 else 0`. -/
def assemblePagination (total : Nat) (limit offset : Option Nat) :
    Except Err (Option PaginationInfo) :=
  match limit, offset with
  | some size, some o =>
    if size = 0 then
      .error .zeroDivision
    else
      let page := o / size + 1
      let pages := (total + size - 1) / size
      .ok (some ⟨total, page, size, pages⟩)
  | _, _ => .ok none

/-- Embeds the `HeroUpdate` pydantic schema with `exclude_unset` presence: a present
`name`/`alias` carries a string, a present `powers` carries a nullable
string. -/
structure HeroUpdate where
  name : Option String
  «alias» : Option String
  powers : Option (Option String)
deriving DecidableEq, Repr

/-- Embeds the `HeroResponse` DTO (`app/schemas/heroes.py`).  The cache stores
`model_dump_json()` of this DTO and reads it back with
`model_validate_json`; by the reversible serialization boundary of spec
section 6 the embedding stores the DTO value itself. -/
structure HeroResponse where
  id : Nat
  name : String
  «alias» : String
  powers : Option String
deriving DecidableEq, Repr

/-- Conversion `HeroResponse.model_validate(hero_orm)`. -/
def toHeroResponse (h : Hero) : HeroResponse :=
  ⟨h.id, h.name, h.«alias», h.powers⟩

/-- Row of the `users` table (`app/models/users.py`): integer primary
key, unique `username`, nullable `password_hash`. -/
structure UserRec where
  id : Nat
  username : String
  password_hash : Option String
deriving DecidableEq, Repr

/-- Embeds the `UserResponse` DTO (`app/schemas/users.py`); cached at key
`user:{username}` as its JSON dump (stored as the DTO value, see
`HeroResponse`). -/
structure UserResponse where
  id : Nat
  username : String
deriving DecidableEq, Repr

/-- Embeds the `UserInDB` DTO: `username`, `id` and a NON-optional `password_hash`. -/
structure UserInDB where
  id : Nat
  username : String
  password_hash : String
deriving DecidableEq, Repr

/-- Shared state of the capability-complete variant: the two tables and
the two cache-aside instances (hero-by-id and identity-by-username), plus
a flush counter for the hero table.  A cache entry being present models
it being present and unexpired (within its TTL). -/
structure SysState where
  heroes : List Hero
  users : List UserRec
  heroCache : Nat → Option HeroResponse
  authCache : String → Option UserResponse
  heroFlushes : Nat

/-- The dict `obj_in.model_dump(exclude_unset=True)` is non-empty. -/
def hasHeroUpdate (u : HeroUpdate) : Bool :=
  u.name.isSome || u.«alias».isSome || u.powers.isSome

/-- The `setattr` loop of `RepositoryBase.update` at the `Hero` entity. -/
def applyHeroUpdate (h : Hero) (u : HeroUpdate) : Hero :=
  { h with
    name := u.name.getD h.name,
    «alias» := u.«alias».getD h.«alias»,
    powers := u.powers.getD h.powers }

/-- Modelled from the spec: the `Hero` model file is not among the
sources, so its uniqueness constraint is taken from spec section 3 ("one
field ... must be unique") together with the repository's translation
message "Hero with alias ... already exists": the `alias` column is
unique.  This predicate is the storage engine's flush-time check. -/
def aliasConflict (s : SysState) (h : Hero) : Bool :=
  s.heroes.any (fun r => r.id != h.id && r.«alias» == h.«alias»)

/-- Embeds `HeroService.get_hero`: read through the cache at key `hero:{id}`; on
a miss fetch from the repository (`NotFound` when absent, without
populating the cache) and write the serialized DTO back with the TTL. -/
def getHero (s : SysState) (i : Nat) : Except Err HeroResponse × SysState :=
  match s.heroCache i with
  | some dto => (.ok dto, s)
  | none =>
    match s.heroes.find? (fun h => h.id == i) with
    | none => (.error .notFound, s)
    | some h =>
      let dto := toHeroResponse h
      (.ok dto, { s with heroCache := fun k => if k = i then some dto else s.heroCache k })

/-- Embeds `HeroService.update_hero`: repository `get` (uniform `NotFound`),
then `RepositoryBase.update` (empty partial input is a no-op; a flush
hitting the uniqueness constraint escapes raw, cf. C2), then — after the
successful mutation and before returning — `redis.delete` on the key. -/
def updateHero (s : SysState) (i : Nat) (u : HeroUpdate) :
    Except Err HeroResponse × SysState :=
  match s.heroes.find? (fun h => h.id == i) with
  | none => (.error .notFound, s)
  | some h =>
    if hasHeroUpdate u then
      let h' := applyHeroUpdate h u
      if aliasConflict s h' then
        (.error .integrityError, s)
      else
        let s1 : SysState :=
          { s with
            heroes := replaceF (fun x => x.id == i) h' s.heroes,
            heroFlushes := s.heroFlushes + 1 }
        (.ok (toHeroResponse h'),
          { s1 with heroCache := fun k => if k = i then none else s1.heroCache k })
    else
      (.ok (toHeroResponse h),
        { s with heroCache := fun k => if k = i then none else s.heroCache k })

/-- Embeds `HeroService.delete_hero`: `RepositoryBase.delete` (re-resolving via
`get`), then `redis.delete` on the key before returning. -/
def deleteHero (s : SysState) (i : Nat) : Except Err Unit × SysState :=
  match s.heroes.find? (fun h => h.id == i) with
  | none => (.error .notFound, s)
  | some _ =>
    let s1 : SysState :=
      { s with
        heroes := s.heroes.eraseP (fun h => h.id == i),
        heroFlushes := s.heroFlushes + 1 }
    (.ok (), { s1 with heroCache := fun k => if k = i then none else s1.heroCache k })

/-- Embeds `UserService.get_user_by_username`: the repository returns the row or
`None`, and the service immediately runs `UserInDB.model_validate` on the
result.  Validating `None` (or a row whose `password_hash` is NULL)
raises a pydantic `ValidationError` — the service can never return
`None`. -/
def get_user_by_username (users : List UserRec) (un : String) : Except Err UserInDB :=
  match users.find? (fun u => u.username == un) with
  | none => .error .validationError
  | some u =>
    match u.password_hash with
    | some p => .ok ⟨u.id, u.username, p⟩
    | none => .error .validationError

/-- Embeds `get_current_user` (`app/domains/users/auth_dependencies.py`): check
the identity cache at `user:{username}`; on a miss call
`service.get_user_by_username` — whose `ValidationError` for a missing
user propagates, making the `if user_orm is None: raise
credentials_exception` check below it dead code — then validate the
`UserResponse` DTO and write it back to the cache with the TTL. -/
def getCurrentUser (s : SysState) (username : String) :
    Except Err UserResponse × SysState :=
  match s.authCache username with
  | some dto => (.ok dto, s)
  | none =>
    match get_user_by_username s.users username with
    | .error e => (.error e, s)
    | .ok uin =>
      let dto : UserResponse := ⟨uin.id, uin.username⟩
      (.ok dto,
        { s with authCache := fun k => if k = username then some dto else s.authCache k })

/-- Embeds `UserRepository.create` plus `UserService.create_user`: reject an
existing username with `AlreadyExists`, otherwise insert the new row (the
password hashing primitive is an external collaborator, so the hash is a
parameter).  No cache is touched. -/
def createUser (s : SysState) (username pw_hash : String) :
    Except Err UserResponse × SysState :=
  match s.users.find? (fun u => u.username == username) with
  | some _ => (.error .alreadyExists, s)
  | none =>
    let uid := s.users.foldr (fun u m => max u.id m) 0 + 1
    (.ok ⟨uid, username⟩,
      { s with users := s.users ++ [⟨uid, username, some pw_hash⟩] })

/-- Concrete system state with one hero row and an empty cache. -/
def heroDemoState : SysState :=
  ⟨[⟨1, "n", "a", none⟩], [], fun _ => none, fun _ => none, 0⟩

/-- State `heroDemoState` after the witnessed update (cache key 1 removed). -/
def heroDemoUpdated : SysState :=
  ⟨[⟨1, "n2", "a", none⟩], [], fun k => if k = 1 then none else none, fun _ => none, 1⟩

/-- State `heroDemoState` after the witnessed delete (cache key 1 removed). -/
def heroDemoDeleted : SysState :=
  ⟨[], [], fun k => if k = 1 then none else none, fun _ => none, 1⟩

/-- System state with no users, no heroes and empty caches. -/
def emptySys : SysState := ⟨[], [], fun _ => none, fun _ => none, 0⟩

/-- System state whose identity cache holds principal alice although the
`users` table is empty (the record has ceased to exist). -/
def authDemoState : SysState :=
  ⟨[⟨1, "n", "a", none⟩], [],
    fun _ => none,
    fun k => if k = "alice" then some ⟨1, "alice"⟩ else none, 0⟩

/-- C1: ownership isolation.  For principals `A ≠ B` and a collection
record owned by `A`, every `get`, `update` and `delete` issued by `B`
through the ownership-scoped repository on that record's id fails with
`Forbidden`, never returns the record, never applies the mutation, and
leaves the whole store (rows and flush count) unchanged. -/
theorem ownership_isolation (st : CollDB) (A B i : Nat) (c : Collection)
    (u : CollectionUpdate)
    (hfind : st.rows.find? (fun r => r.id == i) = some c)
    (hown : c.user_id = A) (hne : A ≠ B) :
    OwnerScopedRepo.get st B i = .error .forbidden ∧
    OwnerScopedRepo.update st B i u = (.error .forbidden, st) ∧
    OwnerScopedRepo.delete st B i = (.error .forbidden, st) := by
  have hget : OwnerScopedRepo.get st B i = .error .forbidden := by
    unfold OwnerScopedRepo.get RepositoryBase.get
    rw [hfind]
    simp only [bne_iff_ne, ne_eq, hown]
    simp [hne]
  refine ⟨hget, ?_, ?_⟩
  · unfold OwnerScopedRepo.update
    rw [hget]
  · unfold OwnerScopedRepo.delete
    rw [hget]

/-- Witness for `ownership_isolation` at a concrete store: user 7 owns
collection 1, user 9 is denied all three operations. -/
theorem ownership_isolation_witness :
    OwnerScopedRepo.get ⟨[⟨1, "Favs", none, 7⟩], 0⟩ 9 1 = .error .forbidden ∧
    OwnerScopedRepo.update ⟨[⟨1, "Favs", none, 7⟩], 0⟩ 9 1 ⟨some "x", none⟩ =
      (.error .forbidden, ⟨[⟨1, "Favs", none, 7⟩], 0⟩) ∧
    OwnerScopedRepo.delete ⟨[⟨1, "Favs", none, 7⟩], 0⟩ 9 1 =
      (.error .forbidden, ⟨[⟨1, "Favs", none, 7⟩], 0⟩) :=
  ownership_isolation ⟨[⟨1, "Favs", none, 7⟩], 0⟩ 7 9 1 ⟨1, "Favs", none, 7⟩
    ⟨some "x", none⟩ rfl rfl (by decide)

/-- C3: partial update applies exactly the fields explicitly present in
the partial input and leaves every other field unchanged; an empty
partial input returns the existing record identical to its pre-call
state, performs no persistence write (flush counter untouched) and
raises no error. -/
theorem partial_update_semantics (st : CollDB) (c : Collection) (u : CollectionUpdate) :
    (u.title = none → u.description = none →
      RepositoryBase.update st c u = (.ok c, st)) ∧
    (∀ r st', RepositoryBase.update st c u = (.ok r, st') →
      r.id = c.id ∧ r.user_id = c.user_id ∧
      r.title = u.title.getD c.title ∧
      r.description = u.description.getD c.description) := by
  constructor
  · intro ht hd
    unfold RepositoryBase.update RepositoryBase.hasUpdate
    simp [ht, hd]
  · intro r st' h
    unfold RepositoryBase.update at h
    by_cases hu : RepositoryBase.hasUpdate u = true
    · simp only [hu, if_true] at h
      by_cases hc : RepositoryBase.titleConflict st (RepositoryBase.applyUpdate c u) = true
      · simp [hc] at h
      · simp only [Bool.not_eq_true] at hc
        simp only [hc, Bool.false_eq_true, if_false, Prod.mk.injEq] at h
        have hr : r = RepositoryBase.applyUpdate c u := by
          cases h.1
          rfl
        subst hr
        exact ⟨rfl, rfl, rfl, rfl⟩
    · simp only [Bool.not_eq_true] at hu
      simp only [hu, Bool.false_eq_true, if_false, Prod.mk.injEq] at h
      have hr : r = c := by
        cases h.1
        rfl
      subst hr
      have ht : u.title = none := by
        unfold RepositoryBase.hasUpdate at hu
        cases h1 : u.title <;> simp [h1] at hu ⊢
      have hd : u.description = none := by
        unfold RepositoryBase.hasUpdate at hu
        cases h1 : u.description <;> simp [h1] at hu ⊢
      simp [ht, hd]

/-- Witness for `partial_update_semantics`: the empty partial input is a
no-op on a concrete store, and a present `description` field is applied
while `title` is untouched. -/
theorem partial_update_semantics_witness :
    RepositoryBase.update ⟨[⟨1, "Favs", none, 7⟩], 0⟩ ⟨1, "Favs", none, 7⟩ ⟨none, none⟩ =
      (.ok ⟨1, "Favs", none, 7⟩, ⟨[⟨1, "Favs", none, 7⟩], 0⟩) ∧
    ((1 : Nat) = 1 ∧ (7 : Nat) = 7 ∧
      "Favs" = (none : Option String).getD "Favs" ∧
      some "my list" = (some (some "my list") : Option (Option String)).getD none) := by
  refine ⟨(partial_update_semantics _ _ _).1 rfl rfl, ?_⟩
  exact (partial_update_semantics ⟨[⟨1, "Favs", none, 7⟩], 0⟩ ⟨1, "Favs", none, 7⟩
      ⟨none, some (some "my list")⟩).2 ⟨1, "Favs", some "my list", 7⟩
      ⟨[⟨1, "Favs", some "my list", 7⟩], 1⟩ rfl

/-- C2 counterexample: an `update` that produces a uniqueness violation is
NOT translated at the repository boundary.  Concrete input: two
collections of user 1 titled "a" and "b"; renaming the second to "a"
makes `RepositoryBase.update` surface the raw storage `IntegrityError`,
which is distinct from `AlreadyExists`. -/
theorem update_not_translated_counterexample :
    (RepositoryBase.update ⟨[⟨1, "a", none, 1⟩, ⟨2, "b", none, 1⟩], 0⟩
        ⟨2, "b", none, 1⟩ ⟨some "a", none⟩).1 = .error .integrityError ∧
    Err.integrityError ≠ Err.alreadyExists := by
  constructor
  · rfl
  · decide

/-- C2 amended: only `create` intercepts the uniqueness-constraint
violation and translates it into `AlreadyExists`; `update` performs its
flush outside any `try/except IntegrityError`, so a uniqueness violation
produced by an update propagates past the repository boundary as the raw
storage error. -/
theorem uniqueness_translation_create_only (st : CollDB) :
    (∀ (inp : CollectionCreate) (uid : Nat),
      st.rows.any (fun r => r.title == inp.title && r.user_id == uid) = true →
      RepositoryBase.create st inp uid = (.error .alreadyExists, st)) ∧
    (∀ (c : Collection) (u : CollectionUpdate),
      RepositoryBase.hasUpdate u = true →
      RepositoryBase.titleConflict st (RepositoryBase.applyUpdate c u) = true →
      RepositoryBase.update st c u = (.error .integrityError, st)) := by
  constructor
  · intro inp uid hdup
    unfold RepositoryBase.create
    simp [hdup]
  · intro c u hu hc
    unfold RepositoryBase.update
    simp [hu, hc]

/-- Witness for `uniqueness_translation_create_only` on a concrete store:
a duplicate `(title, user_id)` create is translated to `AlreadyExists`,
and the conflicting update surfaces the raw `IntegrityError`. -/
theorem uniqueness_translation_create_only_witness :
    RepositoryBase.create ⟨[⟨1, "a", none, 1⟩, ⟨2, "b", none, 1⟩], 0⟩ ⟨"a", none⟩ 1 =
      (.error .alreadyExists, ⟨[⟨1, "a", none, 1⟩, ⟨2, "b", none, 1⟩], 0⟩) ∧
    RepositoryBase.update ⟨[⟨1, "a", none, 1⟩, ⟨2, "b", none, 1⟩], 0⟩
        ⟨2, "b", none, 1⟩ ⟨some "a", none⟩ =
      (.error .integrityError, ⟨[⟨1, "a", none, 1⟩, ⟨2, "b", none, 1⟩], 0⟩) := by
  refine ⟨?_, ?_⟩
  · exact (uniqueness_translation_create_only _).1 ⟨"a", none⟩ 1 (by decide)
  · exact (uniqueness_translation_create_only
      ⟨[⟨1, "a", none, 1⟩, ⟨2, "b", none, 1⟩], 0⟩).2 ⟨2, "b", none, 1⟩
      ⟨some "a", none⟩ (by decide) (by decide)

/-- C6 counterexample: the ownership-violation policy is not applied
consistently across the scoped read paths.  On the same store (collection
1 owned by user 1, read by user 2) the proxy's `get` fails with
`Forbidden` while `CollectionRepository.get_by_id` fails with `NotFound`. -/
theorem scoped_read_policy_inconsistent :
    OwnerScopedRepo.get ⟨[⟨1, "Favs", none, 1⟩], 0⟩ 2 1 = .error .forbidden ∧
    CollectionRepository.get_by_id ⟨[⟨1, "Favs", none, 1⟩], 0⟩ 1 2 = .error .notFound ∧
    Err.forbidden ≠ Err.notFound := by
  refine ⟨rfl, rfl, by decide⟩

/-- C6 amended: `_OwnerScopedRepo.get` does fail with `Forbidden` (distinct
from `NotFound`, so existence is not hidden) when the record's owner field
differs from the acting principal, but the policy is NOT consistent across
the scoped read paths: on the same store `CollectionRepository.get_by_id`
reports `NotFound` for the same non-owned record.  (Primary keys are
unique, hence the `Nodup` hypothesis on the ids.) -/
theorem scoped_get_forbidden_repo_get_not_found (st : CollDB) (B i : Nat)
    (c : Collection)
    (hnd : (st.rows.map (fun r => r.id)).Nodup)
    (hfind : st.rows.find? (fun r => r.id == i) = some c)
    (hown : c.user_id ≠ B) :
    OwnerScopedRepo.get st B i = .error .forbidden ∧
    CollectionRepository.get_by_id st i B = .error .notFound ∧
    Err.forbidden ≠ Err.notFound := by
  refine ⟨?_, ?_, by decide⟩
  · unfold OwnerScopedRepo.get RepositoryBase.get
    rw [hfind]
    simp [hown]
  · unfold CollectionRepository.get_by_id
    have hcmem : c ∈ st.rows := List.mem_of_find?_eq_some hfind
    have hci : c.id = i := by
      have := List.find?_some hfind
      simpa using this
    have hnone : st.rows.find? (fun r => r.id == i && r.user_id == B) = none := by
      rw [List.find?_eq_none]
      intro r hr hpr
      simp only [Bool.and_eq_true, beq_iff_eq] at hpr
      have : r = c := List.inj_on_of_nodup_map hnd hr hcmem (by rw [hpr.1, hci])
      exact hown (this ▸ hpr.2)
    rw [hnone]

/-- Witness for `scoped_get_forbidden_repo_get_not_found` at a concrete
store: collection 1 owned by user 1, read by user 2. -/
theorem scoped_get_forbidden_repo_get_not_found_witness :
    OwnerScopedRepo.get ⟨[⟨1, "Trip", none, 1⟩], 3⟩ 2 1 = .error .forbidden ∧
    CollectionRepository.get_by_id ⟨[⟨1, "Trip", none, 1⟩], 3⟩ 1 2 = .error .notFound ∧
    Err.forbidden ≠ Err.notFound :=
  scoped_get_forbidden_repo_get_not_found ⟨[⟨1, "Trip", none, 1⟩], 3⟩ 2 1
    ⟨1, "Trip", none, 1⟩ (by decide) rfl (by decide)

theorem lexLeB_cons (f : HeroField) (d : Bool) (ks : List (HeroField × Bool)) (a b : Hero) :
    lexLeB ((f, d) :: ks) a b =
      if heroFieldVal a f = heroFieldVal b f then lexLeB ks a b
      else if d then decide (heroFieldVal b f < heroFieldVal a f)
      else decide (heroFieldVal a f < heroFieldVal b f) := rfl

theorem lexLeB_total (keys : List (HeroField × Bool)) (a b : Hero) :
    lexLeB keys a b = true ∨ lexLeB keys b a = true := by
  induction keys with
  | nil => left; rfl
  | cons k ks ih =>
    obtain ⟨f, d⟩ := k
    rw [lexLeB_cons, lexLeB_cons]
    by_cases h : heroFieldVal a f = heroFieldVal b f
    · rw [if_pos h, if_pos h.symm]
      exact ih
    · have h' : heroFieldVal b f ≠ heroFieldVal a f := Ne.symm h
      rw [if_neg h, if_neg h']
      rcases lt_or_gt_of_ne h with hlt | hgt
      · cases d
        · left; simpa using hlt
        · right; simpa using hlt
      · cases d
        · right; simpa using hgt
        · left; simpa using hgt

theorem lexLeB_trans (keys : List (HeroField × Bool)) (a b c : Hero)
    (hab : lexLeB keys a b = true) (hbc : lexLeB keys b c = true) :
    lexLeB keys a c = true := by
  induction keys with
  | nil => rfl
  | cons k ks ih =>
    obtain ⟨f, d⟩ := k
    rw [lexLeB_cons] at hab hbc ⊢
    by_cases h1 : heroFieldVal a f = heroFieldVal b f <;>
      by_cases h2 : heroFieldVal b f = heroFieldVal c f
    · rw [if_pos h1] at hab
      rw [if_pos h2] at hbc
      rw [if_pos (h1.trans h2)]
      exact ih hab hbc
    · have h3 : heroFieldVal a f ≠ heroFieldVal c f := h1 ▸ h2
      rw [if_neg h2] at hbc
      rw [if_neg h3, h1]
      exact hbc
    · have h3 : heroFieldVal a f ≠ heroFieldVal c f := fun hac => h1 (hac.trans h2.symm)
      rw [if_neg h1] at hab
      rw [if_neg h3, ← h2]
      exact hab
    · rw [if_neg h1] at hab
      rw [if_neg h2] at hbc
      cases d
      · simp only [Bool.false_eq_true, if_false, decide_eq_true_eq] at hab hbc
        have h4 : heroFieldVal a f < heroFieldVal c f := lt_trans hab hbc
        rw [if_neg (ne_of_lt h4)]
        simpa using h4
      · simp only [if_true, decide_eq_true_eq] at hab hbc
        have h4 : heroFieldVal c f < heroFieldVal a f := lt_trans hbc hab
        rw [if_neg (ne_of_gt h4)]
        simpa using h4

theorem sortHeroes_perm (keys : List (HeroField × Bool)) (l : List Hero) :
    (sortHeroes keys l).Perm l :=
  List.perm_insertionSort _ _

theorem sortHeroes_sorted (keys : List (HeroField × Bool)) (l : List Hero) :
    List.Sorted (lexLe keys) (sortHeroes keys l) := by
  haveI : IsTotal Hero (lexLe keys) := ⟨fun a b => lexLeB_total keys a b⟩
  haveI : IsTrans Hero (lexLe keys) := ⟨fun a b c => lexLeB_trans keys a b c⟩
  exact List.sorted_insertionSort _ _

theorem pairwise_lexLe_nil (l : List Hero) : List.Pairwise (lexLe []) l := by
  induction l with
  | nil => exact List.Pairwise.nil
  | cons a l ih => exact List.Pairwise.cons (fun b _ => rfl) ih

theorem matchesFilters_nil (h : Hero) : matchesFilters [] h = true := rfl

/-- The total returned by `get_list` counts exactly the rows that satisfy
the exact-filter and search predicates, before sorting and pagination. -/
theorem getList_count (db : List Hero) (lim off : Option Nat) (search : Option String)
    (sf : List String) (ob : Option (List String)) (fs : List (HeroField × SortVal)) :
    (getList db lim off search sf ob fs).1 = (db.filter (listPred search sf fs)).length := by
  unfold getList
  dsimp only
  have hq1 : (if fs.isEmpty then db else db.filter (matchesFilters fs)) =
      db.filter (matchesFilters fs) := by
    by_cases hf : fs.isEmpty
    · rw [if_pos hf]
      have hfs : fs = [] := List.isEmpty_iff.mp hf
      subst hfs
      exact (List.filter_eq_self.mpr (fun a _ => matchesFilters_nil a)).symm
    · rw [if_neg hf]
  rw [hq1]
  have hq2 : (if searchActive search sf && !(searchFieldsOf sf).isEmpty then
        (db.filter (matchesFilters fs)).filter (fun h =>
          (searchFieldsOf sf).any (fun f => ilikeB (heroText h f) (search.getD "")))
      else db.filter (matchesFilters fs)) =
      db.filter (listPred search sf fs) := by
    by_cases hs : (searchActive search sf && !(searchFieldsOf sf).isEmpty) = true
    · rw [if_pos hs, List.filter_filter]
      apply List.filter_congr
      intro a _
      unfold listPred searchPredB
      rw [if_pos hs, Bool.and_comm]
    · rw [if_neg hs]
      apply List.filter_congr
      intro a _
      unfold listPred searchPredB
      rw [if_neg hs, Bool.and_true]
  rw [hq2]
  by_cases hk : (parseOrderBy (ob.getD [])).isEmpty
  · simp only [hk, if_true]
  · simp only [hk, Bool.false_eq_true, if_false]
    exact (sortHeroes_perm _ _).length_eq

/-- C4: for every combination of search term, exact filters, limit and
offset, the `total` returned by `get_list` equals the number of records
satisfying the filter and search predicates (the count is taken on the
filtered but unpaginated query), so it is independent of the limit and
offset supplied. -/
theorem pagination_total_invariant :
    (∀ (db : List Hero) (lim off : Option Nat) (search : Option String)
        (sf : List String) (ob : Option (List String)) (fs : List (HeroField × SortVal)),
      (getList db lim off search sf ob fs).1 =
        (db.filter (listPred search sf fs)).length) ∧
    (∀ (db : List Hero) (l₁ o₁ l₂ o₂ : Option Nat) (search : Option String)
        (sf : List String) (ob : Option (List String)) (fs : List (HeroField × SortVal)),
      (getList db l₁ o₁ search sf ob fs).1 = (getList db l₂ o₂ search sf ob fs).1) := by
  refine ⟨fun db lim off search sf ob fs => getList_count db lim off search sf ob fs, ?_⟩
  intro db l₁ o₁ l₂ o₂ search sf ob fs
  rw [getList_count, getList_count]

/-- An `order_by` entry whose stripped name is not a model column
contributes no ordering clause. -/
theorem parseOrderBy_skips (pre post : List String) (e : String)
    (h : strToHeroField (lstripDashes e) = none) :
    parseOrderBy (pre ++ e :: post) = parseOrderBy (pre ++ post) := by
  unfold parseOrderBy
  rw [List.filterMap_append, List.filterMap_append, List.filterMap_cons]
  unfold parseEntry
  rw [h]
  rfl

/-- Lemma: `get_list` only looks at the parsed ordering clauses of `order_by`. -/
theorem getList_orderBy_congr (db : List Hero) (lim off : Option Nat)
    (s : Option String) (sf : List String) (ob₁ ob₂ : List String)
    (fs : List (HeroField × SortVal))
    (h : parseOrderBy ob₁ = parseOrderBy ob₂) :
    getList db lim off s sf (some ob₁) fs = getList db lim off s sf (some ob₂) fs := by
  unfold getList
  rw [Option.getD_some, Option.getD_some, h]

/-- The filter stages of `get_list` compute `listPred` row by row. -/
theorem getList_filter_eq (db : List Hero) (s : Option String) (sf : List String)
    (fs : List (HeroField × SortVal)) :
    (if (searchActive s sf && !(searchFieldsOf sf).isEmpty) = true then
        List.filter (fun h => (searchFieldsOf sf).any fun f => ilikeB (heroText h f) (s.getD ""))
          (if fs.isEmpty = true then db else List.filter (matchesFilters fs) db)
      else (if fs.isEmpty = true then db else List.filter (matchesFilters fs) db)) =
      db.filter (listPred s sf fs) := by
  have hq1 : (if fs.isEmpty = true then db else List.filter (matchesFilters fs) db) =
      db.filter (matchesFilters fs) := by
    by_cases hf : fs.isEmpty
    · rw [if_pos hf]
      have hfs : fs = [] := List.isEmpty_iff.mp hf
      subst hfs
      exact (List.filter_eq_self.mpr (fun a _ => matchesFilters_nil a)).symm
    · rw [if_neg hf]
  rw [hq1]
  by_cases hs : (searchActive s sf && !(searchFieldsOf sf).isEmpty) = true
  · rw [if_pos hs, List.filter_filter]
    apply List.filter_congr
    intro a _
    unfold listPred searchPredB
    rw [if_pos hs, Bool.and_comm]
  · rw [if_neg hs]
    apply List.filter_congr
    intro a _
    unfold listPred searchPredB
    rw [if_neg hs, Bool.and_true]

/-- The returned page of `get_list` without pagination is a permutation of
the rows satisfying the filters. -/
theorem getList_items_perm (db : List Hero) (s : Option String) (sf : List String)
    (ob : Option (List String)) (fs : List (HeroField × SortVal)) :
    ((getList db none none s sf ob fs).2).Perm (db.filter (listPred s sf fs)) := by
  unfold getList
  dsimp only
  rw [getList_filter_eq]
  by_cases hk : (parseOrderBy (ob.getD [])).isEmpty
  · rw [if_pos hk]
  · rw [if_neg hk]
    exact sortHeroes_perm _ _

/-- The returned page of `get_list` is sorted by the parsed multi-key
comparison. -/
theorem getList_items_sorted (db : List Hero) (lim off : Option Nat)
    (s : Option String) (sf : List String) (ob : List String)
    (fs : List (HeroField × SortVal)) :
    List.Sorted (lexLe (parseOrderBy ob)) ((getList db lim off s sf (some ob) fs).2) := by
  unfold getList
  dsimp only [Option.getD_some]
  by_cases hk : (parseOrderBy ob).isEmpty
  · have hkeys : parseOrderBy ob = [] := List.isEmpty_iff.mp hk
    rw [hkeys]
    exact pairwise_lexLe_nil _
  · rw [if_neg hk]
    have hsorted := sortHeroes_sorted (parseOrderBy ob)
      (if (searchActive s sf && !(searchFieldsOf sf).isEmpty) = true then
        List.filter (fun h => (searchFieldsOf sf).any fun f => ilikeB (heroText h f) (s.getD ""))
          (if fs.isEmpty = true then db else List.filter (matchesFilters fs) db)
      else (if fs.isEmpty = true then db else List.filter (matchesFilters fs) db))
    cases off with
    | none =>
      cases lim with
      | none => exact hsorted
      | some l => exact hsorted.sublist (List.take_sublist _ _)
    | some o =>
      cases lim with
      | none => exact hsorted.sublist (List.drop_sublist _ _)
      | some l =>
        exact hsorted.sublist ((List.take_sublist _ _).trans (List.drop_sublist _ _))

/-- C7: `order_by` semantics of `get_list`.  (1) an entry naming a field
the entity does not have is silently skipped — `get_list` is a total
function, so no error is ever raised, and the result is as if the entry
were absent; (2) a leading `-` marks the named column descending,
anything else ascending; (3) a descending single key compares `≥` on the
column and an ascending one `≤`; (4) entries act left-to-right as a
multi-key sort: the first key on which two rows differ decides alone, and
rows equal on the first key defer to the remaining keys; (5) the returned
page is a permutation of the filtered rows sorted by that multi-key
comparison. -/
theorem order_by_semantics :
    (∀ (db : List Hero) (lim off : Option Nat) (s : Option String) (sf : List String)
        (fs : List (HeroField × SortVal)) (pre post : List String) (e : String),
      strToHeroField (lstripDashes e) = none →
      getList db lim off s sf (some (pre ++ e :: post)) fs =
        getList db lim off s sf (some (pre ++ post)) fs) ∧
    (∀ (e : String) (f : HeroField), strToHeroField (lstripDashes e) = some f →
      parseOrderBy [e] = [(f, startsWithDash e)]) ∧
    (∀ (f : HeroField) (a b : Hero),
      (lexLeB [(f, true)] a b = true ↔ heroFieldVal b f ≤ heroFieldVal a f) ∧
      (lexLeB [(f, false)] a b = true ↔ heroFieldVal a f ≤ heroFieldVal b f)) ∧
    (∀ (f : HeroField) (d : Bool) (ks : List (HeroField × Bool)) (a b : Hero),
      (heroFieldVal a f = heroFieldVal b f →
        lexLeB ((f, d) :: ks) a b = lexLeB ks a b) ∧
      (heroFieldVal a f ≠ heroFieldVal b f →
        lexLeB ((f, d) :: ks) a b = lexLeB [(f, d)] a b)) ∧
    (∀ (db : List Hero) (lim off : Option Nat) (s : Option String) (sf : List String)
        (ob : List String) (fs : List (HeroField × SortVal)),
      List.Sorted (lexLe (parseOrderBy ob)) ((getList db lim off s sf (some ob) fs).2)) ∧
    (∀ (db : List Hero) (s : Option String) (sf : List String)
        (ob : Option (List String)) (fs : List (HeroField × SortVal)),
      ((getList db none none s sf ob fs).2).Perm (db.filter (listPred s sf fs))) := by
  refine ⟨?_, ?_, ?_, ?_, ?_, ?_⟩
  · intro db lim off s sf fs pre post e h
    exact getList_orderBy_congr db lim off s sf _ _ fs (parseOrderBy_skips pre post e h)
  · intro e f h
    unfold parseOrderBy parseEntry
    rw [List.filterMap_cons, h]
    rfl
  · intro f a b
    constructor
    · rw [lexLeB_cons]
      by_cases h : heroFieldVal a f = heroFieldVal b f
      · rw [if_pos h]
        simp [show lexLeB [] a b = true from rfl, h]
      · rw [if_neg h, if_pos rfl]
        constructor
        · intro hlt
          exact le_of_lt (by simpa using hlt)
        · intro hle
          simpa using lt_of_le_of_ne hle (Ne.symm h)
    · rw [lexLeB_cons]
      by_cases h : heroFieldVal a f = heroFieldVal b f
      · rw [if_pos h]
        simp [show lexLeB [] a b = true from rfl, h]
      · rw [if_neg h]
        simp only [Bool.false_eq_true, if_false, decide_eq_true_eq]
        constructor
        · intro hlt
          exact le_of_lt hlt
        · intro hle
          exact lt_of_le_of_ne hle h
  · intro f d ks a b
    constructor
    · intro h
      rw [lexLeB_cons, if_pos h]
    · intro h
      rw [lexLeB_cons, if_neg h, lexLeB_cons, if_neg h]
  · intro db lim off s sf ob fs
    exact getList_items_sorted db lim off s sf ob fs
  · intro db s sf ob fs
    exact getList_items_perm db s sf ob fs

/-- Witness for `order_by_semantics` at concrete inputs: the unknown
entry "bogus" is skipped without error, "-name" parses as descending on
`name`, the single- and multi-key comparisons are instantiated on
concrete rows, and a concrete listing is sorted. -/
theorem order_by_semantics_witness :
    getList [⟨1, "a", "x", none⟩] none none none [] (some ["bogus", "-name"]) [] =
      getList [⟨1, "a", "x", none⟩] none none none [] (some ["-name"]) [] ∧
    parseOrderBy ["-name"] = [(.hname, true)] ∧
    (lexLeB [(.hname, true)] ⟨1, "b", "x", none⟩ ⟨2, "a", "y", none⟩ = true ↔
      heroFieldVal ⟨2, "a", "y", none⟩ .hname ≤ heroFieldVal ⟨1, "b", "x", none⟩ .hname) ∧
    lexLeB [(.hname, true), (.hid, false)] ⟨1, "a", "x", none⟩ ⟨2, "a", "y", none⟩ =
      lexLeB [(.hid, false)] ⟨1, "a", "x", none⟩ ⟨2, "a", "y", none⟩ ∧
    lexLeB [(.hname, true), (.hid, false)] ⟨1, "b", "x", none⟩ ⟨2, "a", "y", none⟩ =
      lexLeB [(.hname, true)] ⟨1, "b", "x", none⟩ ⟨2, "a", "y", none⟩ ∧
    List.Sorted (lexLe (parseOrderBy ["-name"]))
      ((getList [⟨1, "a", "x", none⟩, ⟨2, "b", "y", none⟩] none none none []
        (some ["-name"]) []).2) := by
  have h := order_by_semantics
  exact ⟨h.1 [⟨1, "a", "x", none⟩] none none none [] [] [] ["-name"] "bogus" rfl,
    h.2.1 "-name" .hname rfl,
    (h.2.2.1 .hname ⟨1, "b", "x", none⟩ ⟨2, "a", "y", none⟩).1,
    (h.2.2.2.1 .hname true [(.hid, false)] ⟨1, "a", "x", none⟩ ⟨2, "a", "y", none⟩).1 rfl,
    (h.2.2.2.1 .hname true [(.hid, false)] ⟨1, "b", "x", none⟩ ⟨2, "a", "y", none⟩).2
      (by decide),
    h.2.2.2.2.1 [⟨1, "a", "x", none⟩, ⟨2, "b", "y", none⟩] none none none [] ["-name"] []⟩

/-- C8 counterexample: at `limit = 0` (with an offset supplied) the
assembler does not yield `pageCount = 0`; the `offset // limit`
computation raises `ZeroDivisionError` before `pages` is ever computed,
so no pagination envelope is produced at all. -/
theorem pagination_zero_limit_counterexample :
    assemblePagination 5 (some 0) (some 0) = .error .zeroDivision ∧
    ∀ pi : PaginationInfo, assemblePagination 5 (some 0) (some 0) ≠ .ok (some pi) := by
  constructor
  · rfl
  · intro pi h
    cases h

/-- C8 amended: the pagination assembler is a pure function of
`(total, limit, offset)`.  When both are supplied and `limit > 0` it
computes `page = offset / limit + 1` and `pages`, the least number of
pages of size `limit` covering `total` (that is, `ceil(total / limit)`);
the envelope exposes exactly `(total, page, size, pages)` and no boundary
flags or links (a previous page is derivable iff `page > 1` and a next
page iff `page < pages`).  When `limit` or `offset` is absent no
pagination info is produced, and when `limit = 0` with an offset present
the computation fails with a division error instead of reporting
`pageCount = 0`. -/
theorem pagination_assembler (total l o : Nat) (hl : 0 < l) :
    (assemblePagination total (some l) (some o) =
      .ok (some ⟨total, o / l + 1, l, (total + l - 1) / l⟩)) ∧
    (total ≤ ((total + l - 1) / l) * l ∧
      ∀ m : Nat, total ≤ m * l → (total + l - 1) / l ≤ m) ∧
    assemblePagination total none (some o) = .ok none ∧
    assemblePagination total (some l) none = .ok none ∧
    assemblePagination total none none = .ok none ∧
    assemblePagination total (some 0) (some o) = .error .zeroDivision := by
  have hl0 : l ≠ 0 := Nat.pos_iff_ne_zero.mp hl
  refine ⟨?_, ⟨?_, ?_⟩, rfl, rfl, rfl, rfl⟩
  · simp [assemblePagination, hl0]
  · have h1 : l * ((total + l - 1) / l) + (total + l - 1) % l = total + l - 1 :=
      Nat.div_add_mod _ _
    have h2 : (total + l - 1) % l < l := Nat.mod_lt _ hl
    rw [Nat.mul_comm]
    revert h1 h2
    generalize l * ((total + l - 1) / l) = P
    intro h1 h2
    omega
  · intro m hm
    by_contra hc
    push_neg at hc
    have h3 : m + 1 ≤ (total + l - 1) / l := hc
    have h4 : (m + 1) * l ≤ total + l - 1 := (Nat.le_div_iff_mul_le hl).mp h3
    rw [Nat.succ_mul] at h4
    revert h4 hm
    generalize m * l = P
    intro h4 hm
    omega

/-- Witness for `pagination_assembler` at `total = 5`, `limit = 2`,
`offset = 4`: page 3 of 3 pages, and 3 is the least page count covering
5 records at size 2. -/
theorem pagination_assembler_witness :
    (assemblePagination 5 (some 2) (some 4) = .ok (some ⟨5, 3, 2, 3⟩)) ∧
    (5 ≤ 3 * 2 ∧ ∀ m : Nat, 5 ≤ m * 2 → 3 ≤ m) ∧
    assemblePagination 5 none (some 4) = .ok none ∧
    assemblePagination 5 (some 2) none = .ok none ∧
    assemblePagination 5 none none = .ok none ∧
    assemblePagination 5 (some 0) (some 4) = .error .zeroDivision :=
  pagination_assembler 5 2 4 (by decide)

theorem find?_replaceF {α : Type} (p : α → Bool) (x : α) (hx : p x = true) :
    ∀ (l : List α) (c : α), l.find? p = some c → (replaceF p x l).find? p = some x := by
  intro l
  induction l with
  | nil => intro c h; cases h
  | cons a as ih =>
    intro c h
    by_cases ha : p a = true
    · unfold replaceF
      rw [if_pos ha]
      simp [List.find?, hx]
    · unfold replaceF
      rw [if_neg ha]
      simp only [List.find?, Bool.not_eq_true] at h ⊢
      rw [Bool.not_eq_true] at ha
      rw [ha] at h ⊢
      exact ih c h

theorem find?_eraseP_of_nodup (i : Nat) :
    ∀ (l : List Hero), (l.map (fun h => h.id)).Nodup →
    (l.eraseP (fun h => h.id == i)).find? (fun h => h.id == i) = none := by
  intro l
  induction l with
  | nil => intro _; rfl
  | cons a as ih =>
    intro hnd
    rw [List.map_cons, List.nodup_cons] at hnd
    obtain ⟨hmem, htail⟩ := hnd
    cases ha : (a.id == i) with
    | true =>
      simp only [List.eraseP_cons, ha, cond_true]
      rw [List.find?_eq_none]
      intro x hx hpx
      apply hmem
      rw [List.mem_map]
      refine ⟨x, hx, ?_⟩
      have h1 : x.id = i := by simpa using hpx
      have h2 : a.id = i := by simpa using ha
      rw [h1, h2]
    | false =>
      simp only [List.eraseP_cons, ha, cond_false]
      rw [List.find?_cons_of_neg _ (by simp [ha])]
      exact ih htail

/-- C9: cache invalidation.  After every successful `update_hero` or
`delete_hero` on id `X` the cache key `hero:X` has been removed by the
time the call returns, so a subsequent cache-aside `get_hero X` cannot
serve the pre-mutation serialized value: after an update it returns
exactly the freshly updated DTO, and after a delete it reports
`NotFound`.  (Primary keys are unique, hence the `Nodup` hypothesis.) -/
theorem cache_invalidation_on_mutation (s : SysState) (i : Nat)
    (hnd : (s.heroes.map (fun h => h.id)).Nodup) :
    (∀ (u : HeroUpdate) (r : HeroResponse) (s' : SysState),
      updateHero s i u = (.ok r, s') →
      s'.heroCache i = none ∧ (getHero s' i).1 = .ok r) ∧
    (∀ s' : SysState, deleteHero s i = (.ok (), s') →
      s'.heroCache i = none ∧ (getHero s' i).1 = .error .notFound) := by
  constructor
  · intro u r s' h
    unfold updateHero at h
    cases hf : s.heroes.find? (fun h => h.id == i) with
    | none =>
      rw [hf] at h
      simp at h
    | some h0 =>
      rw [hf] at h
      dsimp only at h
      have hid0 : (h0.id == i) = true := by simpa using List.find?_some hf
      by_cases hu : hasHeroUpdate u = true
      · rw [if_pos hu] at h
        by_cases hc : aliasConflict s (applyHeroUpdate h0 u) = true
        · rw [if_pos hc] at h
          simp at h
        · rw [if_neg hc] at h
          rw [Prod.mk.injEq] at h
          obtain ⟨hr, hs⟩ := h
          subst hs
          have hcache : (if i = i then (none : Option HeroResponse)
              else s.heroCache i) = none := if_pos rfl
          refine ⟨hcache, ?_⟩
          unfold getHero
          dsimp only
          rw [hcache]
          have hfind : (replaceF (fun x => x.id == i) (applyHeroUpdate h0 u)
              s.heroes).find? (fun h => h.id == i) = some (applyHeroUpdate h0 u) :=
            find?_replaceF (fun x => x.id == i) (applyHeroUpdate h0 u) hid0
              s.heroes h0 hf
          rw [hfind]
          dsimp only
          rw [hr]
      · rw [if_neg hu] at h
        rw [Prod.mk.injEq] at h
        obtain ⟨hr, hs⟩ := h
        subst hs
        have hcache : (if i = i then (none : Option HeroResponse)
            else s.heroCache i) = none := if_pos rfl
        refine ⟨hcache, ?_⟩
        unfold getHero
        dsimp only
        rw [hcache, hf]
        dsimp only
        rw [hr]
  · intro s' h
    unfold deleteHero at h
    cases hf : s.heroes.find? (fun h => h.id == i) with
    | none =>
      rw [hf] at h
      simp at h
    | some h0 =>
      rw [hf] at h
      dsimp only at h
      rw [Prod.mk.injEq] at h
      obtain ⟨_, hs⟩ := h
      subst hs
      have hcache : (if i = i then (none : Option HeroResponse)
          else s.heroCache i) = none := if_pos rfl
      refine ⟨hcache, ?_⟩
      unfold getHero
      dsimp only
      rw [hcache, find?_eraseP_of_nodup i s.heroes hnd]

/-- Witness for `cache_invalidation_on_mutation` on `heroDemoState`:
renaming hero 1 leaves no cache entry and a subsequent read returns the
new DTO; deleting hero 1 leaves no cache entry and a subsequent read
reports `NotFound`. -/
theorem cache_invalidation_on_mutation_witness :
    (heroDemoUpdated.heroCache 1 = none ∧
      (getHero heroDemoUpdated 1).1 = .ok ⟨1, "n2", "a", none⟩) ∧
    (heroDemoDeleted.heroCache 1 = none ∧
      (getHero heroDemoDeleted 1).1 = .error .notFound) :=
  ⟨(cache_invalidation_on_mutation heroDemoState 1 (by decide)).1
      ⟨some "n2", none, none⟩ ⟨1, "n2", "a", none⟩ heroDemoUpdated rfl,
    (cache_invalidation_on_mutation heroDemoState 1 (by decide)).2
      heroDemoDeleted rfl⟩

/-- C5: evaluation of the auth resolve step at the failing input.  For an
identity ("ghost") absent from both the cache and the source-of-truth the
validator does NOT produce the uniform unauthorized rejection: the
service's `UserInDB.model_validate(None)` raises a raw pydantic
`ValidationError` which propagates out of `get_current_user`, whose own
`if user_orm is None` check is unreachable dead code. -/
theorem missing_user_escapes_as_validation_error :
    getCurrentUser emptySys "ghost" = (.error .validationError, emptySys) ∧
    Err.validationError ≠ Err.unauthorized := by
  exact ⟨rfl, by decide⟩

/-- C10: no operation in the embedded system ever invalidates an
identity-cache entry.  A cached principal is returned on every subsequent
validation with no storage access — the result does not depend on the
`users` table at all, even if the record changed or was deleted — and
every operation (hero reads and mutations, other validations, user
creation) preserves every existing identity-cache entry unchanged. -/
theorem identity_cache_never_invalidated :
    (∀ (s : SysState) (un : String) (dto : UserResponse),
      s.authCache un = some dto → getCurrentUser s un = (.ok dto, s)) ∧
    (∀ (s : SysState) (un : String) (dto : UserResponse) (users2 : List UserRec),
      s.authCache un = some dto →
      getCurrentUser { s with users := users2 } un = (.ok dto, { s with users := users2 })) ∧
    (∀ (s : SysState) (un : String) (dto : UserResponse),
      s.authCache un = some dto →
      (∀ i, ((getHero s i).2).authCache un = some dto) ∧
      (∀ i u, ((updateHero s i u).2).authCache un = some dto) ∧
      (∀ i, ((deleteHero s i).2).authCache un = some dto) ∧
      (∀ un₂, ((getCurrentUser s un₂).2).authCache un = some dto) ∧
      (∀ username pw, ((createUser s username pw).2).authCache un = some dto)) := by
  have hhit : ∀ (s : SysState) (un : String) (dto : UserResponse),
      s.authCache un = some dto → getCurrentUser s un = (.ok dto, s) := by
    intro s un dto h
    unfold getCurrentUser
    rw [h]
  refine ⟨hhit, ?_, ?_⟩
  · intro s un dto users2 h
    exact hhit { s with users := users2 } un dto h
  · intro s un dto h
    refine ⟨?_, ?_, ?_, ?_, ?_⟩
    · intro i
      unfold getHero
      cases hc : s.heroCache i with
      | some v => exact h
      | none =>
        cases hf : s.heroes.find? (fun h => h.id == i) with
        | none => exact h
        | some v => exact h
    · intro i u
      unfold updateHero
      cases hf : s.heroes.find? (fun h => h.id == i) with
      | none => exact h
      | some h0 =>
        dsimp only
        by_cases hu : hasHeroUpdate u = true
        · rw [if_pos hu]
          by_cases hcf : aliasConflict s (applyHeroUpdate h0 u) = true
          · rw [if_pos hcf]
            exact h
          · rw [if_neg hcf]
            exact h
        · rw [if_neg hu]
          exact h
    · intro i
      unfold deleteHero
      cases hf : s.heroes.find? (fun h => h.id == i) with
      | none => exact h
      | some h0 => exact h
    · intro un₂
      unfold getCurrentUser
      cases hc : s.authCache un₂ with
      | some v => exact h
      | none =>
        cases hg : get_user_by_username s.users un₂ with
        | error e => exact h
        | ok uin =>
          dsimp only
          by_cases he : un = un₂
          · subst he
            rw [hc] at h
            cases h
          · rw [if_neg he]
            exact h
    · intro username pw
      unfold createUser
      cases hf : s.users.find? (fun u => u.username == username) with
      | some v => exact h
      | none => exact h

/-- Witness for `identity_cache_never_invalidated` on `authDemoState`:
validation of alice is served from the cache although no user record
exists, stays served after swapping the `users` table, and survives a
hero read, a hero update, a hero delete, another user's validation and a
user creation. -/
theorem identity_cache_never_invalidated_witness :
    getCurrentUser authDemoState "alice" = (.ok ⟨1, "alice"⟩, authDemoState) ∧
    getCurrentUser { authDemoState with users := [⟨7, "bob", some "h"⟩] } "alice" =
      (.ok ⟨1, "alice"⟩, { authDemoState with users := [⟨7, "bob", some "h"⟩] }) ∧
    ((getHero authDemoState 1).2).authCache "alice" = some ⟨1, "alice"⟩ ∧
    ((updateHero authDemoState 1 ⟨some "n2", none, none⟩).2).authCache "alice" =
      some ⟨1, "alice"⟩ ∧
    ((deleteHero authDemoState 1).2).authCache "alice" = some ⟨1, "alice"⟩ ∧
    ((getCurrentUser authDemoState "bob").2).authCache "alice" = some ⟨1, "alice"⟩ ∧
    ((createUser authDemoState "carol" "h2").2).authCache "alice" = some ⟨1, "alice"⟩ := by
  have h := identity_cache_never_invalidated
  have hc : authDemoState.authCache "alice" = some ⟨1, "alice"⟩ := by decide
  exact ⟨h.1 authDemoState "alice" ⟨1, "alice"⟩ hc,
    h.2.1 authDemoState "alice" ⟨1, "alice"⟩ [⟨7, "bob", some "h"⟩] hc,
    (h.2.2 authDemoState "alice" ⟨1, "alice"⟩ hc).1 1,
    (h.2.2 authDemoState "alice" ⟨1, "alice"⟩ hc).2.1 1 ⟨some "n2", none, none⟩,
    (h.2.2 authDemoState "alice" ⟨1, "alice"⟩ hc).2.2.1 1,
    (h.2.2 authDemoState "alice" ⟨1, "alice"⟩ hc).2.2.2.1 "bob",
    (h.2.2 authDemoState "alice" ⟨1, "alice"⟩ hc).2.2.2.2 "carol" "h2"⟩
